import Mathlib

set_option maxRecDepth 4000

/-!
Shallow embedding of the directory synchronization and content-preservation
engine of `framework/scripts/sync_student.py`.

Paths are slash-normalized strings relative to a tree root.  A tree is an
association list from relative paths to files; a file is its byte content
(as a `String`) together with its modification time (a `Nat`).  Filesystem
faults are made explicit: each operation that can raise in Python takes a
list of paths on which it fails, and an operation whose Python counterpart
lets an exception propagate returns `none` (the caller's loop then stops,
mirroring exception propagation).

All recursive functions are written with structural recursion (using an
explicit fuel argument where the Python loop is not structural, with fuel
large enough that it is never exhausted on the call), so that every
definition evaluates by kernel reduction.
-/

namespace SyncStudent

/-! ### Generic string helpers (modelling the Python string/fnmatch primitives) -/

/-- Split a list of characters on a separator character, like Python
`str.split(c)` restricted to a one-character separator. -/
def splitOnChar (c : Char) : List Char → List (List Char)
  | [] => [[]]
  | x :: s =>
    let r := splitOnChar c s
    if x == c then [] :: r
    else
      match r with
      | [] => [[x]]
      | h :: t => (x :: h) :: t

/-- Join segments with a separator list, like `sep.join(segs)`. -/
def joinWith (sep : List Char) : List (List Char) → List Char
  | [] => []
  | [x] => x
  | x :: xs => x ++ sep ++ joinWith sep xs

/-- Does `s` contain `pat` as a contiguous substring? (Python `pat in s`.) -/
def containsSub (pat : List Char) : List Char → Bool
  | [] => pat.isPrefixOf ([] : List Char)
  | c :: s => pat.isPrefixOf (c :: s) || containsSub pat s

/-- One step of Python `str.replace(pat, rep)`: leftmost, non-overlapping,
left-to-right.  `fuel` bounds the recursion; `s.length` always suffices
because every step consumes at least one character of `s` (the function is
only ever called with a non-empty `pat`). -/
def replaceAllFuel (pat rep : List Char) : Nat → List Char → List Char
  | _, [] => []
  | 0, s => s
  | fuel + 1, c :: s =>
    if pat.isPrefixOf (c :: s) && !pat.isEmpty then
      rep ++ replaceAllFuel pat rep fuel ((c :: s).drop pat.length)
    else
      c :: replaceAllFuel pat rep fuel s

/-- Python `s.replace(pat, rep)` for non-empty `pat`. -/
def strReplace (s pat rep : String) : String :=
  String.mk (replaceAllFuel pat.toList rep.toList s.toList.length s.toList)

/-- Python `s.startswith(pre)`. -/
def strStartsWith (s pre : String) : Bool :=
  pre.toList.isPrefixOf s.toList

/-- Python `s.endswith(suf)`. -/
def strEndsWith (s suf : String) : Bool :=
  suf.toList.isSuffixOf s.toList

/-- Python whitespace characters recognised by `str.strip()` (ASCII ones;
the source never feeds it other whitespace). -/
def isPyWs (c : Char) : Bool :=
  c == ' ' || c == '\t' || c == '\n' || c == '\r' || c == '\x0b' || c == '\x0c'

/-- Python `str.strip()` on a character list. -/
def stripL (s : List Char) : List Char :=
  ((s.dropWhile isPyWs).reverse.dropWhile isPyWs).reverse

/-- Python `str.strip()`. -/
def pyStrip (s : String) : String :=
  String.mk (stripL s.toList)

/-- `fnmatch.fnmatch` matching, modelled for patterns built from literal
characters, `*` (matches any sequence, including `/`) and `?` (matches any
single character).  None of the patterns in `SYNC_EXCLUSIONS` uses a
character class.  The first argument is fuel; `|pattern| + |s| + 1` always
suffices because every recursive call decreases `|pattern| + |s|`. -/
def fnmatchFuel : Nat → List Char → List Char → Bool
  | 0, _, _ => false
  | _ + 1, [], s => s.isEmpty
  | fuel + 1, '*' :: ps, [] => fnmatchFuel fuel ps []
  | fuel + 1, '*' :: ps, c :: s =>
    fnmatchFuel fuel ps (c :: s) || fnmatchFuel fuel ('*' :: ps) s
  | _ + 1, '?' :: _, [] => false
  | fuel + 1, '?' :: ps, _ :: s => fnmatchFuel fuel ps s
  | _ + 1, _ :: _, [] => false
  | fuel + 1, p :: ps, c :: s => p == c && fnmatchFuel fuel ps s

/-- `fnmatch.fnmatch(path_str, pattern)` (full-match, case preserved as on
POSIX). -/
def fnmatch (path_str pattern : String) : Bool :=
  fnmatchFuel (pattern.toList.length + path_str.toList.length + 1)
    pattern.toList path_str.toList

/-- Index of the last `'.'` in a character list, if any. -/
def lastDotIdx : List Char → Option Nat
  | [] => none
  | c :: cs =>
    match lastDotIdx cs with
    | some i => some (i + 1)
    | none => if c == '.' then some 0 else none

/-- `pathlib.Path(p).suffix`: the final extension of the last path
component, including the dot; empty when the last dot is at position 0 or
at the end of the name. -/
def path_suffix (p : String) : String :=
  let name := (splitOnChar '/' p.toList).getLastD []
  match lastDotIdx name with
  | some i => if 0 < i && i + 1 < name.length then String.mk (name.drop i) else ""
  | none => ""

/-- The segment-wise ancestors of a path, shortest first, ending with the
path itself (what `Path(p).mkdir(parents=True)` brings into existence). -/
def pathAncestors (p : String) : List String :=
  let parts := splitOnChar '/' p.toList
  (List.range parts.length).map (fun i => joinSegs (parts.take (i + 1)))
where
  joinSegs (segs : List (List Char)) : String := String.mk (joinWith ['/'] segs)

/-- `Path(p).mkdir(parents=True, exist_ok=True)` acting on the set of
existing directories. -/
def mkdirParents (p : String) (dirs : List String) : List String :=
  dirs ++ (pathAncestors p).filter (fun d => !dirs.contains d)

/-- `Path(p).parent` rendered as a relative path (the empty string for a
top-level name). -/
def parentPath (p : String) : String :=
  pathAncestors.joinSegs ((splitOnChar '/' p.toList).dropLast)

/-! ### Data model: files, trees, filesystem state -/

/-- A relative, slash-normalized path. -/
abbrev RelPath := String

/-- A regular file: its byte content and its modification time. -/
structure FsFile where
  content : String
  mtime : Nat
deriving Repr, DecidableEq

/-- A file tree: association list from relative paths to files. -/
abbrev Tree := List (RelPath × FsFile)

/-- A target-side filesystem: its regular files and its directories. -/
structure Fs where
  files : Tree
  dirs : List String
deriving Repr, DecidableEq

/-- Existence / content of the file at `p` (Python `Path.exists` plus
`open(...).read`). -/
def lookupFile (t : Tree) (p : RelPath) : Option FsFile :=
  (t.find? (fun e => e.1 == p)).map (·.2)

/-- Write (create or overwrite) the file at `p`. -/
def setFile (t : Tree) (p : RelPath) (f : FsFile) : Tree :=
  if (t.find? (fun e => e.1 == p)).isSome then
    t.map (fun e => if e.1 == p then (p, f) else e)
  else
    t ++ [(p, f)]

/-! ### Source constants (`CONTENT_DIRECTORIES`, `SYNC_EXCLUSIONS`) -/

/-- `CONTENT_DIRECTORIES` (sync_student.py, lines 28-30). -/
def CONTENT_DIRECTORIES : List String := ["class_notes"]

/-- `SYNC_EXCLUSIONS` (sync_student.py, lines 33-53): category name paired
with its glob patterns, in source order. -/
def SYNC_EXCLUSIONS : List (String × List String) :=
  [("generated_content",
     ["**/00_index.md", "**/00_master_index.md", "*.backup"]),
   ("build_artifacts",
     ["__pycache__/", "__pycache__/**", "*.pyc", "*.pyo", "*.pyd",
      ".hugo_build.lock", "*.log", "*.tmp", "*.temp"]),
   ("personal_files",
     [".vscode/", ".idea/", ".vscode/**", ".idea/**", "*.swp", "*.swo",
      "*~", ".DS_Store", "Thumbs.db", "desktop.ini", ".env", ".env.local",
      ".env.*"])]

/-- `get_all_exclusion_patterns` (lines 55-60): flattened pattern list in
category order. -/
def get_all_exclusion_patterns : List String :=
  SYNC_EXCLUSIONS.foldr (fun cat acc => cat.2 ++ acc) []

/-! ### Exclusion matcher (`should_sync_file`, lines 62-81) -/

/-- The per-pattern loop body of `should_sync_file`: first a direct
`fnmatch`, then a directory-prefix check for patterns ending in `/`, then a
recursive-descendant check for patterns containing `/**`. -/
def should_sync_loop (path_str : String) : List String → Bool × String
  | [] => (true, "include")
  | pattern :: rest =>
    if fnmatch path_str pattern then
      (false, "pattern: " ++ pattern)
    else if strEndsWith pattern "/" && strStartsWith path_str pattern then
      (false, "directory: " ++ pattern)
    else if containsSub "/**".toList pattern.toList &&
        strStartsWith path_str (strReplace pattern "/**" "/") then
      (false, "recursive: " ++ pattern)
    else
      should_sync_loop path_str rest

/-- `should_sync_file(rel_path, exclusion_patterns)` (lines 62-81). -/
def should_sync_file (rel_path : String) (exclusion_patterns : List String) :
    Bool × String :=
  should_sync_loop (strReplace rel_path "\\" "/") exclusion_patterns

/-! ### Framework classifier (`is_framework_file`, lines 83-101) -/

/-- The fixed `framework_paths` list (lines 88-95). -/
def framework_paths : List String :=
  ["framework_code/scripts/", "framework_code/themes/",
   "framework_code/components/", "framework_code/css/",
   "framework_code/assets/", "framework_code/hugo_config/"]

/-- `is_framework_file(rel_path)` (lines 83-101). -/
def is_framework_file (rel_path : String) : Bool :=
  framework_paths.any (fun p => strStartsWith (strReplace rel_path "\\" "/") p)

/-! ### Keep-block codec (`preserve_keep_blocks` / `apply_keep_blocks`) -/

/-- The start marker of a KEEP block. -/
def KEEP_START : List Char := "<!-- KEEP:START -->".toList

/-- The end marker of a KEEP block. -/
def KEEP_END : List Char := "<!-- KEEP:END -->".toList

/-- Split at the first occurrence of `pat`: returns the part before the
occurrence and the part after it. -/
def splitAtFirst (pat : List Char) : List Char → Option (List Char × List Char)
  | [] => if pat.isPrefixOf ([] : List Char) then some ([], []) else none
  | c :: s =>
    if pat.isPrefixOf (c :: s) then some ([], (c :: s).drop pat.length)
    else (splitAtFirst pat s).map (fun q => (c :: q.1, q.2))

/-- The non-overlapping leftmost matches of the regex
`<!-- KEEP:START -->(.*?)<!-- KEEP:END -->` with `re.DOTALL`, as computed
by `re.findall`: repeatedly take the first start marker, then the first
end marker after it, capture what lies between, and continue after the end
marker.  `fuel` bounds the recursion; the content length always suffices
since every round consumes both markers. -/
def keepBlocksFuel : Nat → List Char → List (List Char)
  | 0, _ => []
  | fuel + 1, s =>
    match splitAtFirst KEEP_START s with
    | none => []
    | some q =>
      match splitAtFirst KEEP_END q.2 with
      | none => []
      | some r => r.1 :: keepBlocksFuel fuel r.2

/-- `preserve_keep_blocks(content)` (lines 197-201). -/
def preserve_keep_blocks (content : String) : List String :=
  (keepBlocksFuel content.toList.length content.toList).map String.mk

/-- The wrapper the merge puts around the `i`-th preserved block
(lines 210-212); note the `block.strip()`. -/
def blockWrap (i : Nat) (block : String) : String :=
  "\n<!-- PRESERVED BLOCK " ++ toString i ++ " -->\n" ++ pyStrip block ++
    "\n<!-- END PRESERVED BLOCK " ++ toString i ++ " -->\n"

/-- The `for i, block in enumerate(keep_blocks, 1)` accumulation of
`apply_keep_blocks` (lines 209-212). -/
def preservedFold : Nat → List String → String
  | _, [] => ""
  | i, b :: bs => blockWrap i b ++ preservedFold (i + 1) bs

/-- The fixed header of the preserved section (line 208). -/
def PRESERVED_HEADER : String :=
  "\n\n<!-- PRESERVED CONTENT FROM PREVIOUS VERSION -->\n"

/-- `apply_keep_blocks(new_content, keep_blocks)` (lines 203-214). -/
def apply_keep_blocks (new_content : String) (keep_blocks : List String) :
    String :=
  if keep_blocks.isEmpty then new_content
  else new_content ++ PRESERVED_HEADER ++ preservedFold 1 keep_blocks

/-! ### Change scanner (`scan_directory_changes`, lines 136-195) -/

/-- The five classification lists built by `scan_directory_changes`. -/
structure Changes where
  new_files : List RelPath
  updated_files : List RelPath
  unchanged_files : List RelPath
  student_only_files : List RelPath
  excluded_files : List (RelPath × String)
deriving Repr, DecidableEq

/-- The initial `changes` dictionary (lines 138-144). -/
def emptyChanges : Changes := ⟨[], [], [], [], []⟩

/-- Is `p` below one of the `CONTENT_DIRECTORIES`?  Mirrors the fact that
only `professor_path / content_dir` subtrees are walked by `rglob`. -/
def underContentDirs (p : RelPath) : Bool :=
  CONTENT_DIRECTORIES.any (fun d => strStartsWith p (d ++ "/"))

/-- The regular files a walk of the content directories yields, in tree
order. -/
def contentFiles (t : Tree) : Tree :=
  t.filter (fun e => underContentDirs e.1)

/-- The first `for prof_file in content_path.rglob('*')` loop
(lines 159-177).  `studStatErr` / `profStatErr` are the paths on which the
`.stat()` calls of line 174 raise; a raise propagates out of the scan,
which is modelled by returning `none` (the classification accumulated so
far is lost, exactly as in Python). -/
def scanSourceLoop (stud : Tree) (studStatErr profStatErr : List RelPath) :
    List (RelPath × FsFile) → Changes → Option Changes
  | [], acc => some acc
  | (p, f) :: rest, acc =>
    let sr := should_sync_file p get_all_exclusion_patterns
    if !sr.1 then
      scanSourceLoop stud studStatErr profStatErr rest
        { acc with excluded_files := acc.excluded_files ++ [(p, sr.2)] }
    else
      match lookupFile stud p with
      | none =>
        scanSourceLoop stud studStatErr profStatErr rest
          { acc with new_files := acc.new_files ++ [p] }
      | some tf =>
        if studStatErr.contains p || profStatErr.contains p then none
        else if tf.mtime < f.mtime then
          scanSourceLoop stud studStatErr profStatErr rest
            { acc with updated_files := acc.updated_files ++ [p] }
        else
          scanSourceLoop stud studStatErr profStatErr rest
            { acc with unchanged_files := acc.unchanged_files ++ [p] }

/-- The second, student-only discovery loop (lines 180-193). -/
def studentOnlyLoop (prof : Tree) :
    List (RelPath × FsFile) → Changes → Changes
  | [], acc => acc
  | (p, _) :: rest, acc =>
    let sr := should_sync_file p get_all_exclusion_patterns
    if sr.1 && (lookupFile prof p).isNone then
      studentOnlyLoop prof rest
        { acc with student_only_files := acc.student_only_files ++ [p] }
    else
      studentOnlyLoop prof rest acc

/-- `scan_directory_changes(professor_dir, student_dir)` (lines 136-195).
`studentRoot` is the student directory path; line 151 creates it (with
parents) before any classification.  The returned `Fs` is the student-side
filesystem after the scan; the scan never writes a file. -/
def scan_directory_changes (prof : Tree) (fs : Fs) (studentRoot : String)
    (studStatErr profStatErr : List RelPath) : Option Changes × Fs :=
  let fs' : Fs := { fs with dirs := mkdirParents studentRoot fs.dirs }
  match scanSourceLoop fs.files studStatErr profStatErr
      (contentFiles prof) emptyChanges with
  | none => (none, fs')
  | some acc =>
    (some (studentOnlyLoop prof (contentFiles fs.files) acc), fs')

/-! ### Sync executor (`sync_file`, lines 216-253; `perform_sync`, 255-295) -/

/-- The text-eligible suffixes of line 226. -/
def TEXT_SUFFIXES : List String := [".md", ".txt", ".html", ".qmd"]

/-- `sync_file(source_path, target_path, force_update)` (lines 216-253).

`src` is the state of the source path (`none` when it does not exist: the
read/copy in the `try` block then raises and is caught, yielding
`"error"`).  `now` is the wall-clock time stamped onto files written via
`open(..., 'w')`; `shutil.copy2` instead copies the source's mtime.
`mkdirErr` are target paths whose parent-directory creation (line 218,
outside any `try`) raises — modelled as `none`, i.e. the exception
propagates to the caller.  `copyErr` are target paths for which the copy
phase inside the `try` (lines 235-248) raises, caught as `"error"`.
`decodeErr` are target paths whose keep-block read raises
`UnicodeDecodeError`, silently leaving `keep_blocks` empty. -/
def sync_file (src : Option FsFile) (target_path : RelPath) (fs : Fs)
    (force_update : Bool) (now : Nat)
    (mkdirErr copyErr decodeErr : List RelPath) : Option (String × Fs) :=
  if mkdirErr.contains target_path then none
  else
    let fs1 : Fs := { fs with dirs := mkdirParents (parentPath target_path) fs.dirs }
    let tgt := lookupFile fs1.files target_path
    if tgt.isSome && !force_update then some ("skipped", fs1)
    else
      let keep_blocks : List String :=
        match tgt with
        | some tf =>
          if TEXT_SUFFIXES.contains (path_suffix target_path) then
            if decodeErr.contains target_path then []
            else preserve_keep_blocks tf.content
          else []
        | none => []
      if copyErr.contains target_path then some ("error", fs1)
      else
        match src with
        | none => some ("error", fs1)
        | some sf =>
          let newFile : FsFile :=
            if !keep_blocks.isEmpty then
              { content := apply_keep_blocks sf.content keep_blocks, mtime := now }
            else
              { content := sf.content, mtime := sf.mtime }
          let files' := setFile fs1.files target_path newFile
          let res := if (lookupFile files' target_path).isSome
                     then "updated" else "created"
          some (res, { fs1 with files := files' })

/-- The run-level result counters: the Python `results` dict, keyed by
strings (note that the dict is seeded with key `'errors'` while the
per-file bump uses the result string `'error'`, creating a fresh key). -/
abbrev Results := List (String × Nat)

/-- `results.get(k, 0)`. -/
def resGet (r : Results) (k : String) : Nat :=
  ((r.find? (fun e => e.1 == k)).map (·.2)).getD 0

/-- `results[k] = v`. -/
def resSet (r : Results) (k : String) (v : Nat) : Results :=
  if (r.find? (fun e => e.1 == k)).isSome then
    r.map (fun e => if e.1 == k then (k, v) else e)
  else
    r ++ [(k, v)]

/-- `results[k] = results.get(k, 0) + 1`. -/
def resBump (r : Results) (k : String) : Results :=
  resSet r k (resGet r k + 1)

/-- The initial `results` dict of line 261. -/
def results0 : Results :=
  [("created", 0), ("updated", 0), ("skipped", 0), ("errors", 0),
   ("framework_forced", 0)]

/-- The `for rel_path in all_files` loop of `perform_sync`
(lines 278-293).  The returned `Bool` is true when an exception propagated
out of `sync_file` (a mkdir failure), aborting the remaining files; the
`Fs` is then the state at the abort. -/
def syncLoop (prof : Tree) (force_update_list : List RelPath) (now : Nat)
    (mkdirErr copyErr decodeErr : List RelPath) :
    List RelPath → Fs → Results → Fs × Results × Bool
  | [], fs, results => (fs, results, false)
  | rel_path :: rest, fs, results =>
    let source_file := lookupFile prof rel_path
    let is_framework := is_framework_file rel_path
    let force_update := force_update_list.contains rel_path || is_framework
    match sync_file source_file rel_path fs force_update now
        mkdirErr copyErr decodeErr with
    | none => (fs, results, true)
    | some rf =>
      let results1 :=
        if is_framework && (rf.1 == "updated" || rf.1 == "created") then
          resBump results "framework_forced"
        else results
      let results2 := resBump results1 rf.1
      syncLoop prof force_update_list now mkdirErr copyErr decodeErr
        rest rf.2 results2

/-- `perform_sync(professor_dir, student_dir, changes, force_update_list)`
(lines 255-295). -/
def perform_sync (prof : Tree) (fs : Fs) (changes : Changes)
    (force_update_list : List RelPath) (now : Nat)
    (mkdirErr copyErr decodeErr : List RelPath) : Fs × Results × Bool :=
  let all_files := changes.new_files ++ changes.updated_files
  if all_files.isEmpty then (fs, results0, false)
  else
    syncLoop prof force_update_list now mkdirErr copyErr decodeErr
      all_files fs results0

/-- One full run of `main`'s core: `scan_directory_changes` followed by
`perform_sync` on its result (an aborted scan applies nothing). -/
def syncRound (prof : Tree) (studentRoot : String)
    (force_update_list : List RelPath) (now : Nat)
    (studStatErr profStatErr mkdirErr copyErr decodeErr : List RelPath)
    (fs : Fs) : Fs :=
  match scan_directory_changes prof fs studentRoot studStatErr profStatErr with
  | (none, fs') => fs'
  | (some changes, fs') =>
    (perform_sync prof fs' changes force_update_list now
      mkdirErr copyErr decodeErr).1

/-! ### Specification-side definitions used to state the claims -/

/-- Shorthand for the include/exclude verdict of the matcher on the full
configured pattern list. -/
def syncB (p : RelPath) : Bool :=
  (should_sync_file p get_all_exclusion_patterns).1

/-- The scanner's `New` condition for a source entry: not excluded and no
file at the same relative path in the student tree (line 172). -/
def condNew (stud : Tree) (e : RelPath × FsFile) : Bool :=
  syncB e.1 && (lookupFile stud e.1).isNone

/-- The scanner's `Updated` condition: not excluded, present in the
student tree, and the student's mtime is strictly older (line 174). -/
def condUpd (stud : Tree) (e : RelPath × FsFile) : Bool :=
  syncB e.1 &&
    ((lookupFile stud e.1).map (fun tf => decide (tf.mtime < e.2.mtime))).getD false

/-- The scanner's `Unchanged` condition: not excluded, present, and the
student's mtime is the same age or newer (line 176). -/
def condUnch (stud : Tree) (e : RelPath × FsFile) : Bool :=
  syncB e.1 &&
    ((lookupFile stud e.1).map (fun tf => decide (e.2.mtime ≤ tf.mtime))).getD false

/-- The union-of-checks a single pattern performs inside
`should_sync_file`: direct fnmatch, directory-prefix, or
recursive-descendant.  Used to state which pattern fires first. -/
def pattern_matches (path_str pattern : String) : Bool :=
  fnmatch path_str pattern ||
  (strEndsWith pattern "/" && strStartsWith path_str pattern) ||
  (containsSub "/**".toList pattern.toList &&
    strStartsWith path_str (strReplace pattern "/**" "/"))

/-- `InOrderSub bs s`: the lists `bs` occur in `s`, in order, as disjoint
contiguous substrings. -/
inductive InOrderSub : List (List Char) → List Char → Prop
  | nil (s : List Char) : InOrderSub [] s
  | cons (b : List Char) (bs : List (List Char)) (x rest : List Char) :
      InOrderSub bs rest → InOrderSub (b :: bs) (x ++ (b ++ rest))

/-! ### Lemmas: file map primitives -/

theorem lookup_append (t t2 : Tree) (q : RelPath) :
    lookupFile (t ++ t2) q =
      match lookupFile t q with
      | some f => some f
      | none => lookupFile t2 q := by
  induction t with
  | nil => simp [lookupFile]
  | cons a t ih =>
    by_cases ha : a.1 = q
    · simp [lookupFile, List.find?, ha]
    · have ha' : (a.1 == q) = false := by simp [ha]
      simpa [lookupFile, List.find?, ha'] using ih

theorem lookup_map_replace_ne (t : Tree) (p q : RelPath) (f : FsFile)
    (h : q ≠ p) :
    lookupFile (t.map (fun e => if e.1 == p then (p, f) else e)) q =
      lookupFile t q := by
  induction t with
  | nil => rfl
  | cons a t ih =>
    have hpq : ¬ p = q := fun hh => h hh.symm
    by_cases hap : a.1 = p
    · have h1 : (a.1 == p) = true := by simp [hap]
      have h2 : (p == q) = false := by simp [hpq]
      have h3 : (a.1 == q) = false := by simp [hap, hpq]
      simpa [lookupFile, List.find?, h1, h2, h3] using ih
    · have h1 : (a.1 == p) = false := by simp [hap]
      by_cases haq : a.1 = q
      · simp [lookupFile, List.find?, h1, haq, hpq, h]
      · have h3 : (a.1 == q) = false := by simp [haq]
        simpa [lookupFile, List.find?, h1, h3] using ih

theorem lookup_map_replace_self (t : Tree) (p : RelPath) (f : FsFile)
    (h : (t.find? (fun e => e.1 == p)).isSome) :
    lookupFile (t.map (fun e => if e.1 == p then (p, f) else e)) p =
      some f := by
  induction t with
  | nil => simp [List.find?] at h
  | cons a t ih =>
    by_cases hap : a.1 = p
    · have h1 : (a.1 == p) = true := by simp [hap]
      simp [lookupFile, List.find?, h1]
    · have h1 : (a.1 == p) = false := by simp [hap]
      have h' : (t.find? (fun e => e.1 == p)).isSome := by
        simpa [List.find?, h1] using h
      simpa [lookupFile, List.find?, h1] using ih h'

theorem lookup_setFile_self (t : Tree) (p : RelPath) (f : FsFile) :
    lookupFile (setFile t p f) p = some f := by
  unfold setFile
  by_cases h : ((t.find? (fun e => e.1 == p)).isSome : Prop)
  · rw [if_pos h]
    exact lookup_map_replace_self t p f h
  · rw [if_neg h]
    have hnone : lookupFile t p = none := by
      rcases hfind : t.find? (fun e => e.1 == p) with _ | e
      · simp [lookupFile, hfind]
      · exact absurd (by simp [hfind]) h
    rw [lookup_append, hnone]
    simp [lookupFile, List.find?]

theorem lookup_setFile_ne (t : Tree) (p q : RelPath) (f : FsFile)
    (h : q ≠ p) : lookupFile (setFile t p f) q = lookupFile t q := by
  unfold setFile
  by_cases hf : ((t.find? (fun e => e.1 == p)).isSome : Prop)
  · rw [if_pos hf]
    exact lookup_map_replace_ne t p q f h
  · rw [if_neg hf, lookup_append]
    have hpq : ¬ p = q := fun hh => h hh.symm
    have h2 : (p == q) = false := by simp [hpq]
    rcases hq : lookupFile t q with _ | g
    · simp [lookupFile, List.find?, h2]
    · simp

theorem not_mem_of_lookup_none (t : Tree) (p : RelPath) (f : FsFile)
    (h : lookupFile t p = none) : (p, f) ∉ t := by
  intro hmem
  simp only [lookupFile, Option.map_eq_none', List.find?_eq_none] at h
  have := h (p, f) hmem
  simp at this

theorem lookup_of_mem_nodupKeys (t : Tree) (p : RelPath) (f : FsFile)
    (hnd : (t.map (·.1)).Nodup) (hmem : (p, f) ∈ t) :
    lookupFile t p = some f := by
  induction t with
  | nil => simp at hmem
  | cons a t ih =>
    simp only [List.map_cons, List.nodup_cons] at hnd
    rcases List.mem_cons.mp hmem with h | h
    · subst h
      simp [lookupFile, List.find?]
    · have hne : a.1 ≠ p := by
        intro he
        exact hnd.1 (he ▸ List.mem_map_of_mem (·.1) h)
      have : (a.1 == p) = false := by simp [hne]
      simpa [lookupFile, List.find?, this] using ih hnd.2 h

theorem eq_of_mem_nodupKeys (t : Tree) (p : RelPath) (a b : FsFile)
    (hnd : (t.map (·.1)).Nodup) (ha : (p, a) ∈ t) (hb : (p, b) ∈ t) :
    a = b := by
  have h1 := lookup_of_mem_nodupKeys t p a hnd ha
  have h2 := lookup_of_mem_nodupKeys t p b hnd hb
  rw [h1] at h2
  exact Option.some_inj.mp h2

/-! ### Lemmas: `sync_file` -/

theorem sync_file_none (src : Option FsFile) (p : RelPath) (fs : Fs)
    (force : Bool) (now : Nat) (me ce de : List RelPath)
    (hme : me.contains p = true) :
    sync_file src p fs force now me ce de = none := by
  have hme' : p ∈ me := by simpa using hme
  simp [sync_file, hme']

theorem sync_file_mkdir_ok (src : Option FsFile) (p : RelPath) (fs : Fs)
    (force : Bool) (now : Nat) (me ce de : List RelPath) (r : String)
    (fs' : Fs) (h : sync_file src p fs force now me ce de = some (r, fs')) :
    me.contains p = false := by
  by_cases hme : me.contains p = true
  · rw [sync_file_none src p fs force now me ce de hme] at h
    cases h
  · simpa using hme

theorem sync_file_frame (src : Option FsFile) (p : RelPath) (fs : Fs)
    (force : Bool) (now : Nat) (me ce de : List RelPath) (r : String)
    (fs' : Fs) (h : sync_file src p fs force now me ce de = some (r, fs'))
    (q : RelPath) (hq : q ≠ p) :
    lookupFile fs'.files q = lookupFile fs.files q := by
  have hme := sync_file_mkdir_ok src p fs force now me ce de r fs' h
  simp only [sync_file, hme, Bool.false_eq_true, if_false] at h
  split at h
  · cases h
    rfl
  · split at h
    · cases h
      rfl
    · rcases src with _ | sf
      · cases h
        rfl
      · simp only [Option.some.injEq, Prod.mk.injEq] at h
        rw [← h.2]
        exact lookup_setFile_ne fs.files p q _ hq

theorem ite_updated_created_ne_skipped {c : Prop} [Decidable c] :
    (if c then ("updated" : String) else "created") ≠ "skipped" := by
  by_cases h : c <;> simp [h]

theorem sync_file_res_skipped (src : Option FsFile) (p : RelPath) (fs : Fs)
    (force : Bool) (now : Nat) (me ce de : List RelPath)
    (hme : me.contains p = false) :
    ((sync_file src p fs force now me ce de).map (·.1) = some "skipped") ↔
      ((lookupFile fs.files p).isSome = true ∧ force = false) := by
  simp only [sync_file, hme, Bool.false_eq_true, if_false]
  by_cases hc : ((lookupFile fs.files p).isSome && !force) = true
  · simp only [hc, if_true]
    simp only [Bool.and_eq_true, Bool.not_eq_true'] at hc
    simp [hc]
  · simp only [hc, Bool.false_eq_true, if_false]
    rw [Bool.and_eq_true, Bool.not_eq_true'] at hc
    constructor
    · intro habs
      exfalso
      split at habs
      · simp at habs
      · rcases src with _ | sf
        · simp at habs
        · simp only [Option.map_some', Option.some.injEq] at habs
          exact ite_updated_created_ne_skipped habs
    · intro habs
      exact absurd habs hc

theorem ite_mtime_or {c : Prop} [Decidable c] (a b : FsFile) (x y : Nat)
    (ha : a.mtime = y) (hb : b.mtime = x) :
    (if c then a else b).mtime = x ∨ (if c then a else b).mtime = y := by
  by_cases h : c
  · right
    simp [h, ha]
  · left
    simp [h, hb]

theorem sync_file_write (sf : FsFile) (p : RelPath) (fs : Fs) (force : Bool)
    (now : Nat) (me ce de : List RelPath)
    (hme : me.contains p = false) (hce : ce.contains p = false)
    (hforce : force = true ∨ lookupFile fs.files p = none) :
    ∃ r nf fs', sync_file (some sf) p fs force now me ce de = some (r, fs') ∧
      lookupFile fs'.files p = some nf ∧
      (nf.mtime = sf.mtime ∨ nf.mtime = now) := by
  have hcond : ((lookupFile fs.files p).isSome && !force) = false := by
    rcases hforce with h | h <;> simp [h]
  simp only [sync_file, hme, hce, Bool.false_eq_true, if_false, hcond]
  refine ⟨_, _, _, rfl, lookup_setFile_self fs.files p _, ?_⟩
  exact ite_mtime_or _ _ _ _ rfl rfl

/-! ### Lemmas: the executor loop -/

theorem syncLoop_preserve (prof : Tree) (flist : List RelPath) (now : Nat)
    (me ce de : List RelPath) :
    ∀ (l : List RelPath) (fs : Fs) (r : Results) (p : RelPath), p ∉ l →
      lookupFile ((syncLoop prof flist now me ce de l fs r).1).files p =
        lookupFile fs.files p
  | [], _, _, _, _ => rfl
  | a :: rest, fs, r, p, hp => by
    have hpa : p ≠ a := fun h => hp (h ▸ List.mem_cons_self a rest)
    have hprest : p ∉ rest := fun h => hp (List.mem_cons_of_mem a h)
    simp only [syncLoop]
    rcases hsf : sync_file (lookupFile prof a) a fs
        (flist.contains a || is_framework_file a) now me ce de with _ | rf
    · rfl
    · rcases rf with ⟨r1, fs1⟩
      have hframe := sync_file_frame (lookupFile prof a) a fs
        (flist.contains a || is_framework_file a) now me ce de r1 fs1 hsf p hpa
      rw [syncLoop_preserve prof flist now me ce de rest fs1 _ p hprest, hframe]

theorem syncLoop_post (prof : Tree) (flist : List RelPath) (now : Nat)
    (de : List RelPath) :
    ∀ (l : List RelPath) (fs : Fs) (r : Results),
      l.Nodup →
      (∀ q ∈ l, ∃ sfq, lookupFile prof q = some sfq ∧ sfq.mtime ≤ now ∧
        ((flist.contains q || is_framework_file q) = true ∨
          lookupFile fs.files q = none)) →
      ∀ p ∈ l, ∃ sf tf, lookupFile prof p = some sf ∧
        lookupFile ((syncLoop prof flist now [] [] de l fs r).1).files p =
          some tf ∧ sf.mtime ≤ tf.mtime
  | [], _, _, _, _, p, hp => absurd hp (List.not_mem_nil p)
  | a :: rest, fs, r, hnd, hq, p, hp => by
    obtain ⟨sfa, hsfa, hsfa_now, hforcea⟩ := hq a (List.mem_cons_self a rest)
    have hnd' := List.nodup_cons.mp hnd
    obtain ⟨r1, nf, fs1, hsync, hlook, hmt⟩ :=
      sync_file_write sfa a fs (flist.contains a || is_framework_file a) now
        [] [] de (by simp) (by simp) hforcea
    simp only [syncLoop]
    rw [hsfa, hsync]
    rcases List.mem_cons.mp hp with rfl | hprest
    · refine ⟨sfa, nf, hsfa, ?_, ?_⟩
      · rw [syncLoop_preserve prof flist now [] [] de rest fs1 _ p hnd'.1,
          hlook]
      · rcases hmt with h | h
        · rw [h]
        · rw [h]
          exact hsfa_now
    · apply syncLoop_post prof flist now de rest fs1 _ hnd'.2 ?_ p hprest
      intro q hqrest
      obtain ⟨sfq, h1, h2, h3⟩ := hq q (List.mem_cons_of_mem a hqrest)
      refine ⟨sfq, h1, h2, ?_⟩
      rcases h3 with h3 | h3
      · exact Or.inl h3
      · right
        have hqa : q ≠ a := fun he => hnd'.1 (he ▸ hqrest)
        rw [sync_file_frame (some sfa) a fs
          (flist.contains a || is_framework_file a) now [] [] de r1 fs1
          hsync q hqa]
        exact h3

/-! ### Lemmas: the scanner loops -/

theorem scanLoop_so (stud : Tree) (se pe : List RelPath) :
    ∀ (l : List (RelPath × FsFile)) (acc c : Changes),
      scanSourceLoop stud se pe l acc = some c →
      c.student_only_files = acc.student_only_files
  | [], acc, c, h => by
    simp only [scanSourceLoop, Option.some.injEq] at h
    rw [← h]
  | (p, f) :: rest, acc, c, h => by
    simp only [scanSourceLoop] at h
    split at h
    · have h2 := scanLoop_so stud se pe rest _ c h
      simpa using h2
    · split at h
      · have h2 := scanLoop_so stud se pe rest _ c h
        simpa using h2
      · split at h
        · exact absurd h (by simp)
        · split at h
          · have h2 := scanLoop_so stud se pe rest _ c h
            simpa using h2
          · have h2 := scanLoop_so stud se pe rest _ c h
            simpa using h2

theorem scanLoop_new_sub (stud : Tree) (se pe : List RelPath) :
    ∀ (l : List (RelPath × FsFile)) (acc c : Changes),
      scanSourceLoop stud se pe l acc = some c →
      ∀ p, p ∈ c.new_files → p ∈ acc.new_files ∨ p ∈ l.map (·.1)
  | [], acc, c, h, p, hp => by
    simp only [scanSourceLoop, Option.some.injEq] at h
    rw [← h] at hp
    exact Or.inl hp
  | (a, f) :: rest, acc, c, h, p, hp => by
    simp only [scanSourceLoop] at h
    split at h
    · rcases scanLoop_new_sub stud se pe rest _ c h p hp with h1 | h1
      · exact Or.inl h1
      · exact Or.inr (by simp [h1])
    · split at h
      · rcases scanLoop_new_sub stud se pe rest _ c h p hp with h1 | h1
        · simp only [List.mem_append, List.mem_singleton] at h1
          rcases h1 with h1 | h1
          · exact Or.inl h1
          · exact Or.inr (by simp [h1])
        · exact Or.inr (by simp [h1])
      · split at h
        · exact absurd h (by simp)
        · split at h
          · rcases scanLoop_new_sub stud se pe rest _ c h p hp with h1 | h1
            · exact Or.inl h1
            · exact Or.inr (by simp [h1])
          · rcases scanLoop_new_sub stud se pe rest _ c h p hp with h1 | h1
            · exact Or.inl h1
            · exact Or.inr (by simp [h1])

theorem scanLoop_upd_sub (stud : Tree) (se pe : List RelPath) :
    ∀ (l : List (RelPath × FsFile)) (acc c : Changes),
      scanSourceLoop stud se pe l acc = some c →
      ∀ p, p ∈ c.updated_files → p ∈ acc.updated_files ∨ p ∈ l.map (·.1)
  | [], acc, c, h, p, hp => by
    simp only [scanSourceLoop, Option.some.injEq] at h
    rw [← h] at hp
    exact Or.inl hp
  | (a, f) :: rest, acc, c, h, p, hp => by
    simp only [scanSourceLoop] at h
    split at h
    · rcases scanLoop_upd_sub stud se pe rest _ c h p hp with h1 | h1
      · exact Or.inl h1
      · exact Or.inr (by simp [h1])
    · split at h
      · rcases scanLoop_upd_sub stud se pe rest _ c h p hp with h1 | h1
        · exact Or.inl h1
        · exact Or.inr (by simp [h1])
      · split at h
        · exact absurd h (by simp)
        · split at h
          · rcases scanLoop_upd_sub stud se pe rest _ c h p hp with h1 | h1
            · simp only [List.mem_append, List.mem_singleton] at h1
              rcases h1 with h1 | h1
              · exact Or.inl h1
              · exact Or.inr (by simp [h1])
            · exact Or.inr (by simp [h1])
          · rcases scanLoop_upd_sub stud se pe rest _ c h p hp with h1 | h1
            · exact Or.inl h1
            · exact Or.inr (by simp [h1])

theorem scanLoop_unch_sub (stud : Tree) (se pe : List RelPath) :
    ∀ (l : List (RelPath × FsFile)) (acc c : Changes),
      scanSourceLoop stud se pe l acc = some c →
      ∀ p, p ∈ c.unchanged_files → p ∈ acc.unchanged_files ∨ p ∈ l.map (·.1)
  | [], acc, c, h, p, hp => by
    simp only [scanSourceLoop, Option.some.injEq] at h
    rw [← h] at hp
    exact Or.inl hp
  | (a, f) :: rest, acc, c, h, p, hp => by
    simp only [scanSourceLoop] at h
    split at h
    · rcases scanLoop_unch_sub stud se pe rest _ c h p hp with h1 | h1
      · exact Or.inl h1
      · exact Or.inr (by simp [h1])
    · split at h
      · rcases scanLoop_unch_sub stud se pe rest _ c h p hp with h1 | h1
        · exact Or.inl h1
        · exact Or.inr (by simp [h1])
      · split at h
        · exact absurd h (by simp)
        · split at h
          · rcases scanLoop_unch_sub stud se pe rest _ c h p hp with h1 | h1
            · exact Or.inl h1
            · exact Or.inr (by simp [h1])
          · rcases scanLoop_unch_sub stud se pe rest _ c h p hp with h1 | h1
            · simp only [List.mem_append, List.mem_singleton] at h1
              rcases h1 with h1 | h1
              · exact Or.inl h1
              · exact Or.inr (by simp [h1])
            · exact Or.inr (by simp [h1])

theorem studentOnly_new (prof : Tree) :
    ∀ (l : List (RelPath × FsFile)) (acc : Changes),
      (studentOnlyLoop prof l acc).new_files = acc.new_files
  | [], _ => rfl
  | (p, f) :: rest, acc => by
    simp only [studentOnlyLoop]
    split
    · exact studentOnly_new prof rest _
    · exact studentOnly_new prof rest _

theorem studentOnly_upd (prof : Tree) :
    ∀ (l : List (RelPath × FsFile)) (acc : Changes),
      (studentOnlyLoop prof l acc).updated_files = acc.updated_files
  | [], _ => rfl
  | (p, f) :: rest, acc => by
    simp only [studentOnlyLoop]
    split
    · exact studentOnly_upd prof rest _
    · exact studentOnly_upd prof rest _

theorem studentOnly_unch (prof : Tree) :
    ∀ (l : List (RelPath × FsFile)) (acc : Changes),
      (studentOnlyLoop prof l acc).unchanged_files = acc.unchanged_files
  | [], _ => rfl
  | (p, f) :: rest, acc => by
    simp only [studentOnlyLoop]
    split
    · exact studentOnly_unch prof rest _
    · exact studentOnly_unch prof rest _

theorem studentOnly_so_sub (prof : Tree) :
    ∀ (l : List (RelPath × FsFile)) (acc : Changes) (p : RelPath),
      p ∈ (studentOnlyLoop prof l acc).student_only_files →
      p ∈ acc.student_only_files ∨ p ∈ l.map (·.1)
  | [], acc, p, hp => Or.inl hp
  | (a, f) :: rest, acc, p, hp => by
    simp only [studentOnlyLoop] at hp
    split at hp
    · rcases studentOnly_so_sub prof rest _ p hp with h1 | h1
      · simp only [List.mem_append, List.mem_singleton] at h1
        rcases h1 with h1 | h1
        · exact Or.inl h1
        · exact Or.inr (by simp [h1])
      · exact Or.inr (by simp [h1])
    · rcases studentOnly_so_sub prof rest _ p hp with h1 | h1
      · exact Or.inl h1
      · exact Or.inr (by simp [h1])

theorem scan_fs_eq (prof : Tree) (fs : Fs) (root : String)
    (se pe : List RelPath) :
    (scan_directory_changes prof fs root se pe).2 =
      { fs with dirs := mkdirParents root fs.dirs } := by
  unfold scan_directory_changes
  rcases h : scanSourceLoop fs.files se pe (contentFiles prof) emptyChanges
    with _ | acc <;> simp [h]

/-! ### Lemmas: scanner characterization (no filesystem faults) -/

theorem scanLoop_eq (stud : Tree) :
    ∀ (l : List (RelPath × FsFile)) (acc : Changes),
      scanSourceLoop stud [] [] l acc =
        some { new_files :=
                 acc.new_files ++ (l.filter (condNew stud)).map (·.1),
               updated_files :=
                 acc.updated_files ++ (l.filter (condUpd stud)).map (·.1),
               unchanged_files :=
                 acc.unchanged_files ++ (l.filter (condUnch stud)).map (·.1),
               student_only_files := acc.student_only_files,
               excluded_files :=
                 acc.excluded_files ++
                   (l.filter (fun e => !syncB e.1)).map
                     (fun e =>
                       (e.1, (should_sync_file e.1 get_all_exclusion_patterns).2)) }
  | [], acc => by simp [scanSourceLoop]
  | (p, f) :: rest, acc => by
    by_cases hs : (should_sync_file p get_all_exclusion_patterns).1 = true
    · rcases hl : lookupFile stud p with _ | tf
      · rw [show scanSourceLoop stud [] [] ((p, f) :: rest) acc =
              scanSourceLoop stud [] [] rest
                { acc with new_files := acc.new_files ++ [p] } from by
            simp [scanSourceLoop, hs, hl]]
        rw [scanLoop_eq stud rest _]
        simp only [Option.some.injEq, Changes.mk.injEq]
        refine ⟨?_, ?_, ?_, trivial, ?_⟩ <;>
          simp [condNew, condUpd, condUnch, syncB, hs, hl, List.filter_cons]
      · by_cases hm : tf.mtime < f.mtime
        · rw [show scanSourceLoop stud [] [] ((p, f) :: rest) acc =
                scanSourceLoop stud [] [] rest
                  { acc with updated_files := acc.updated_files ++ [p] } from by
              simp [scanSourceLoop, hs, hl, hm]]
          rw [scanLoop_eq stud rest _]
          have hm' : ¬ f.mtime ≤ tf.mtime := by omega
          simp only [Option.some.injEq, Changes.mk.injEq]
          refine ⟨?_, ?_, ?_, trivial, ?_⟩ <;>
            simp [condNew, condUpd, condUnch, syncB, hs, hl, hm, hm',
              List.filter_cons]
        · rw [show scanSourceLoop stud [] [] ((p, f) :: rest) acc =
                scanSourceLoop stud [] [] rest
                  { acc with unchanged_files := acc.unchanged_files ++ [p] }
              from by simp [scanSourceLoop, hs, hl, hm]]
          rw [scanLoop_eq stud rest _]
          have hm' : f.mtime ≤ tf.mtime := by omega
          simp only [Option.some.injEq, Changes.mk.injEq]
          refine ⟨?_, ?_, ?_, trivial, ?_⟩ <;>
            simp [condNew, condUpd, condUnch, syncB, hs, hl, hm, hm',
              List.filter_cons]
    · rw [show scanSourceLoop stud [] [] ((p, f) :: rest) acc =
            scanSourceLoop stud [] [] rest
              { acc with excluded_files := acc.excluded_files ++
                  [(p, (should_sync_file p get_all_exclusion_patterns).2)] }
          from by simp [scanSourceLoop, hs]]
      rw [scanLoop_eq stud rest _]
      simp only [Option.some.injEq, Changes.mk.injEq]
      refine ⟨?_, ?_, ?_, trivial, ?_⟩ <;>
        simp [condNew, condUpd, condUnch, syncB, hs, List.filter_cons]

/-! ### Lemmas: paths and directory creation -/

theorem splitOnChar_ne_nil (c : Char) : ∀ (l : List Char),
    splitOnChar c l ≠ []
  | [] => by simp [splitOnChar]
  | x :: s => by
    simp only [splitOnChar]
    by_cases h : (x == c) = true
    · simp [h]
    · simp only [h, Bool.false_eq_true, if_false]
      rcases hr : splitOnChar c s with _ | ⟨hh, tt⟩
      · simp
      · simp

theorem joinWith_splitOnChar (c : Char) : ∀ (l : List Char),
    joinWith [c] (splitOnChar c l) = l
  | [] => rfl
  | x :: s => by
    have ih := joinWith_splitOnChar c s
    simp only [splitOnChar]
    obtain ⟨hh, tt, hr⟩ := List.exists_cons_of_ne_nil (splitOnChar_ne_nil c s)
    by_cases h : (x == c) = true
    · have hx : x = c := by simpa using h
      rw [if_pos h, hr]
      rw [hr] at ih
      show [] ++ [c] ++ joinWith [c] (hh :: tt) = x :: s
      rw [ih, hx]
      rfl
    · rw [if_neg h, hr]
      rw [hr] at ih
      rcases tt with _ | ⟨t1, t2⟩
      · show x :: hh = x :: s
        rw [show hh = s from ih]
      · show (x :: hh) ++ [c] ++ joinWith [c] (t1 :: t2) = x :: s
        rw [← ih]
        rfl

theorem mk_toList (s : String) : String.mk s.toList = s := by
  cases s
  rfl

theorem self_mem_pathAncestors (p : String) : p ∈ pathAncestors p := by
  unfold pathAncestors
  have hne : splitOnChar '/' p.toList ≠ [] := splitOnChar_ne_nil '/' p.toList
  have hlen : 0 < (splitOnChar '/' p.toList).length := List.length_pos.mpr hne
  refine List.mem_map.mpr ⟨(splitOnChar '/' p.toList).length - 1, ?_, ?_⟩
  · exact List.mem_range.mpr (by omega)
  · have h1 : (splitOnChar '/' p.toList).length - 1 + 1 =
        (splitOnChar '/' p.toList).length := by omega
    rw [h1, List.take_length]
    show pathAncestors.joinSegs (splitOnChar '/' p.toList) = p
    unfold pathAncestors.joinSegs
    rw [joinWith_splitOnChar, mk_toList]

theorem mem_mkdirParents_old (p d : String) (dirs : List String)
    (h : d ∈ dirs) : d ∈ mkdirParents p dirs :=
  List.mem_append_left _ h

theorem mem_mkdirParents_anc (p d : String) (dirs : List String)
    (h : d ∈ pathAncestors p) : d ∈ mkdirParents p dirs := by
  by_cases hd : d ∈ dirs
  · exact List.mem_append_left _ hd
  · refine List.mem_append_right _ (List.mem_filter.mpr ⟨h, ?_⟩)
    simp [hd]

/-! ### Lemmas: framework prefixes never meet the content allow-list -/

theorem isPrefixOf_head (a : Char) (l s : List Char)
    (h : (a :: l).isPrefixOf s = true) : s.head? = some a := by
  cases s with
  | nil => exact Bool.noConfusion h
  | cons b t =>
    simp only [List.isPrefixOf, Bool.and_eq_true, beq_iff_eq] at h
    simp [h.1]

theorem head_of_startsWith (s pre : String) (c : Char)
    (hpre : pre.toList.head? = some c) (h : strStartsWith s pre = true) :
    s.toList.head? = some c := by
  unfold strStartsWith at h
  rcases hp : pre.toList with _ | ⟨a, l⟩
  · rw [hp] at hpre
    cases hpre
  · rw [hp] at hpre h
    have h2 := isPrefixOf_head a l s.toList h
    simp only [List.head?_cons, Option.some.injEq] at hpre
    rw [h2, hpre]

theorem replace_backslash_head (p : String) (c : Char) (hc : ¬ c = '\\')
    (hh : p.toList.head? = some c) :
    (strReplace p "\\" "/").toList.head? = some c := by
  unfold strReplace
  rcases hp : p.toList with _ | ⟨x, s⟩
  · rw [hp] at hh
    cases hh
  · rw [hp] at hh
    have hx : x = c := by simpa using hh
    subst hx
    have hbe : ('\\' == x) = false :=
      beq_eq_false_iff_ne.mpr (fun he => hc he.symm)
    show (replaceAllFuel "\\".toList "/".toList (x :: s).length
      (x :: s)).head? = some x
    rw [List.length_cons]
    have hcond : ("\\".toList.isPrefixOf (x :: s) && !"\\".toList.isEmpty) =
        false := by
      have h0 : "\\".toList.isPrefixOf (x :: s) =
          ('\\' == x && List.isPrefixOf [] s) := rfl
      rw [h0, hbe]
      rfl
    have hstep : replaceAllFuel "\\".toList "/".toList (s.length + 1)
        (x :: s) = x :: replaceAllFuel "\\".toList "/".toList s.length s := by
      show (if ("\\".toList.isPrefixOf (x :: s) && !"\\".toList.isEmpty) = true
          then "/".toList ++ replaceAllFuel "\\".toList "/".toList s.length
            ((x :: s).drop "\\".toList.length)
          else x :: replaceAllFuel "\\".toList "/".toList s.length s) =
        x :: replaceAllFuel "\\".toList "/".toList s.length s
      rw [hcond]
      simp
    rw [hstep]
    rfl

theorem is_framework_head (p : RelPath) (h : is_framework_file p = true) :
    (strReplace p "\\" "/").toList.head? = some 'f' := by
  simp only [is_framework_file, framework_paths, List.any_cons, List.any_nil,
    Bool.or_eq_true, Bool.or_false] at h
  rcases h with h | h | h | h | h | h <;>
    exact head_of_startsWith _ _ 'f' (by decide) h

theorem underContent_head (p : RelPath) (h : underContentDirs p = true) :
    p.toList.head? = some 'c' := by
  simp only [underContentDirs, CONTENT_DIRECTORIES, List.any_cons,
    List.any_nil, Bool.or_false] at h
  exact head_of_startsWith p _ 'c' (by decide) h

theorem framework_not_content (p : RelPath) (h : is_framework_file p = true) :
    underContentDirs p = false := by
  by_contra hc
  have hc' : underContentDirs p = true := by simpa using hc
  have h1 := underContent_head p hc'
  have h2 := is_framework_head p h
  have h3 := replace_backslash_head p 'c' (by decide) h1
  rw [h3] at h2
  simp at h2

theorem mem_contentFiles (t : Tree) (p : RelPath)
    (hp : p ∈ (contentFiles t).map (·.1)) : underContentDirs p = true := by
  simp only [contentFiles, List.mem_map] at hp
  obtain ⟨e, he, rfl⟩ := hp
  exact (List.mem_filter.mp he).2

/-! ### Lemmas: keep-block merge structure -/

theorem toList_append (a b : String) :
    (a ++ b).toList = a.toList ++ b.toList := by
  cases a
  cases b
  rfl

theorem inOrderSub_append_left (x : List Char) {bs : List (List Char)}
    {s : List Char} (h : InOrderSub bs s) : InOrderSub bs (x ++ s) := by
  cases h with
  | nil => exact InOrderSub.nil _
  | cons b bs' y rest h' =>
    have h2 := InOrderSub.cons b bs' (x ++ y) rest h'
    simpa [List.append_assoc] using h2

theorem inOrder_preservedFold : ∀ (bs : List String) (i : Nat),
    InOrderSub (bs.map (fun b => (pyStrip b).toList))
      ((preservedFold i bs).toList)
  | [], _ => InOrderSub.nil _
  | b :: bs, i => by
    have ih := inOrder_preservedFold bs (i + 1)
    have hdecomp : (preservedFold i (b :: bs)).toList =
        ("\n<!-- PRESERVED BLOCK " ++ toString i ++ " -->\n").toList ++
          ((pyStrip b).toList ++
            (("\n<!-- END PRESERVED BLOCK " ++ toString i ++ " -->\n").toList ++
              (preservedFold (i + 1) bs).toList)) := by
      simp [preservedFold, blockWrap, toList_append, List.append_assoc]
    rw [List.map_cons, hdecomp]
    exact InOrderSub.cons _ _ _ _ (inOrderSub_append_left _ ih)

/-! ### The claims -/

/-- C10: `Scan` is not read-only on the filesystem: on every invocation it
creates the target root directory (including missing parents) as a side
effect, before and independently of any classification (even an aborted
scan has performed it), while leaving every file of the target tree
untouched. -/
theorem claim_C10 (prof : Tree) (fs : Fs) (root : String)
    (se pe : List RelPath) :
    ((scan_directory_changes prof fs root se pe).2).files = fs.files ∧
    root ∈ ((scan_directory_changes prof fs root se pe).2).dirs ∧
    pathAncestors root ⊆ ((scan_directory_changes prof fs root se pe).2).dirs ∧
    fs.dirs ⊆ ((scan_directory_changes prof fs root se pe).2).dirs := by
  rw [scan_fs_eq]
  exact ⟨rfl, mem_mkdirParents_anc root root fs.dirs
      (self_mem_pathAncestors root),
    fun d hd => mem_mkdirParents_anc root d fs.dirs hd,
    fun d hd => List.mem_append_left _ hd⟩

/-- C5 (amended): `sync_file` returns `"skipped"` exactly when the target
file already exists and `force_update` is false.  In particular the
Skipped branch IS reachable from the Scanner's Updated classification: a
scanner-classified updated path that is neither a framework path nor
explicitly requested is passed with `force_update = false` and, its target
existing, is skipped. -/
theorem claim_C5_amended (src : Option FsFile) (p : RelPath) (fs : Fs)
    (force : Bool) (now : Nat) (me ce de : List RelPath) (r : String)
    (fs' : Fs) (h : sync_file src p fs force now me ce de = some (r, fs')) :
    r = "skipped" ↔
      ((lookupFile fs.files p).isSome = true ∧ force = false) := by
  have hme := sync_file_mkdir_ok src p fs force now me ce de r fs' h
  have hres := sync_file_res_skipped src p fs force now me ce de hme
  rw [h] at hres
  simpa using hres

/-- Witness for C5: a concrete scanner-style call (existing target, no
force) takes the Skipped branch. -/
theorem claim_C5_witness :
    ("skipped" = "skipped" ↔
      ((lookupFile ([("class_notes/a.md", ⟨"v1", 5⟩)] : Tree)
          "class_notes/a.md").isSome = true ∧ false = false)) :=
  claim_C5_amended (some ⟨"v2", 10⟩) "class_notes/a.md"
    ⟨[("class_notes/a.md", ⟨"v1", 5⟩)], []⟩ false 20 [] [] [] "skipped"
    ⟨[("class_notes/a.md", ⟨"v1", 5⟩)], ["class_notes"]⟩ (by decide)

/-- Counterexample for C5 as stated: for a source/target pair with one
non-framework updated file, the full Scan + Apply pipeline (with the empty
force list, as `main` passes it) produces exactly one `skipped` result for
a path the Scanner classified as Updated. -/
theorem claim_C5_counterexample :
    (((scan_directory_changes [("class_notes/a.md", ⟨"v2", 10⟩)]
        ⟨[("class_notes/a.md", ⟨"v1", 5⟩)], []⟩ "students/s" [] []).1).getD
          emptyChanges).updated_files = ["class_notes/a.md"] ∧
    resGet ((perform_sync [("class_notes/a.md", ⟨"v2", 10⟩)]
        (scan_directory_changes [("class_notes/a.md", ⟨"v2", 10⟩)]
          ⟨[("class_notes/a.md", ⟨"v1", 5⟩)], []⟩ "students/s" [] []).2
        (((scan_directory_changes [("class_notes/a.md", ⟨"v2", 10⟩)]
          ⟨[("class_notes/a.md", ⟨"v1", 5⟩)], []⟩ "students/s" [] []).1).getD
            emptyChanges)
        [] 20 [] [] []).2.1) "skipped" = 1 := by decide

/-- C6 (amended): only a failure inside the copy phase of `sync_file`
(the `try` block: reading the source, writing the target) is recorded as a
per-file `"error"` result, after which the loop continues with the
remaining files unchanged in behaviour.  (Stat failures during Scan and
directory-creation failures during Apply instead abort the remainder of
the run; see the counterexample.) -/
theorem claim_C6_amended (prof : Tree) (flist : List RelPath) (now : Nat)
    (me ce de : List RelPath) (p : RelPath) (rest : List RelPath) (fs : Fs)
    (r : Results) (h1 : flist.contains p = true)
    (h2 : me.contains p = false) (h3 : ce.contains p = true) :
    syncLoop prof flist now me ce de (p :: rest) fs r =
      syncLoop prof flist now me ce de rest
        { fs with dirs := mkdirParents (parentPath p) fs.dirs }
        (resBump r "error") := by
  simp only [syncLoop]
  have h2' : p ∉ me := by simpa using h2
  have h3' : p ∈ ce := by simpa using h3
  have h1' : p ∈ flist := by simpa using h1
  have hsync : sync_file (lookupFile prof p) p fs
      (flist.contains p || is_framework_file p) now me ce de =
      some ("error", { fs with dirs := mkdirParents (parentPath p) fs.dirs }) := by
    simp [sync_file, h2', h3', h1']
  rw [hsync]
  simp

/-- Witness for C6 (amended): a concrete copy failure bumps the `error`
counter and the loop proceeds to the next file. -/
theorem claim_C6_witness :
    syncLoop [] ["class_notes/x.md"] 0 [] ["class_notes/x.md"] []
        ["class_notes/x.md", "class_notes/y.md"] ⟨[], []⟩ results0 =
      syncLoop [] ["class_notes/x.md"] 0 [] ["class_notes/x.md"] []
        ["class_notes/y.md"] ⟨[], ["class_notes"]⟩
        (resBump results0 "error") := by
  have h := claim_C6_amended [] ["class_notes/x.md"] 0 []
    ["class_notes/x.md"] [] "class_notes/x.md" ["class_notes/y.md"]
    ⟨[], []⟩ results0 (by decide) (by decide) (by decide)
  simpa using h

/-- Counterexample for C6 as stated: a `stat` failure on one file during
Scan aborts the entire scan (the classification is lost and the sibling
file `class_notes/b.md` is never processed), rather than being recorded
per-file. -/
theorem claim_C6_counterexample :
    (scan_directory_changes
      [("class_notes/a.md", ⟨"v2", 10⟩), ("class_notes/b.md", ⟨"w2", 10⟩)]
      ⟨[("class_notes/a.md", ⟨"v1", 5⟩), ("class_notes/b.md", ⟨"w1", 5⟩)], []⟩
      "students/s" ["class_notes/a.md"] []).1 = none := by decide

/-- C9 (code bug): a file classified New (present in source, absent in
target) is copied with identical bytes and matching mtime, but the
per-file outcome is reported as `"updated"`, never `"created"`: the
existence check of sync_student.py line 249 runs after the copy, when the
target always exists, so the `created` counter stays 0. -/
theorem claim_C9_bug :
    (((scan_directory_changes [("class_notes/01_intro.md", ⟨"hello", 10⟩)]
        ⟨[], []⟩ "students/s" [] []).1).getD emptyChanges).new_files =
      ["class_notes/01_intro.md"] ∧
    resGet ((perform_sync [("class_notes/01_intro.md", ⟨"hello", 10⟩)]
        (scan_directory_changes [("class_notes/01_intro.md", ⟨"hello", 10⟩)]
          ⟨[], []⟩ "students/s" [] []).2
        (((scan_directory_changes [("class_notes/01_intro.md", ⟨"hello", 10⟩)]
          ⟨[], []⟩ "students/s" [] []).1).getD emptyChanges)
        [] 20 [] [] []).2.1) "created" = 0 ∧
    resGet ((perform_sync [("class_notes/01_intro.md", ⟨"hello", 10⟩)]
        (scan_directory_changes [("class_notes/01_intro.md", ⟨"hello", 10⟩)]
          ⟨[], []⟩ "students/s" [] []).2
        (((scan_directory_changes [("class_notes/01_intro.md", ⟨"hello", 10⟩)]
          ⟨[], []⟩ "students/s" [] []).1).getD emptyChanges)
        [] 20 [] [] []).2.1) "updated" = 1 ∧
    lookupFile ((perform_sync [("class_notes/01_intro.md", ⟨"hello", 10⟩)]
        (scan_directory_changes [("class_notes/01_intro.md", ⟨"hello", 10⟩)]
          ⟨[], []⟩ "students/s" [] []).2
        (((scan_directory_changes [("class_notes/01_intro.md", ⟨"hello", 10⟩)]
          ⟨[], []⟩ "students/s" [] []).1).getD emptyChanges)
        [] 20 [] [] []).1).files "class_notes/01_intro.md" =
      some ⟨"hello", 10⟩ := by decide

/-- C3 (amended): overwriting a target file that contains `N` KeepBlocks
appends, after the new content, every one of the `N` block contents with
leading/trailing whitespace stripped (internal whitespace preserved), in
original document order. -/
theorem claim_C3_amended (old new_content : String)
    (h : preserve_keep_blocks old ≠ []) :
    (apply_keep_blocks new_content (preserve_keep_blocks old)).toList.take
        new_content.toList.length = new_content.toList ∧
    InOrderSub ((preserve_keep_blocks old).map (fun b => (pyStrip b).toList))
      ((apply_keep_blocks new_content (preserve_keep_blocks old)).toList.drop
        new_content.toList.length) := by
  have hne : (preserve_keep_blocks old).isEmpty = false := by
    rcases hb : preserve_keep_blocks old with _ | ⟨x, xs⟩
    · exact absurd hb h
    · rfl
  have hlist : (apply_keep_blocks new_content
        (preserve_keep_blocks old)).toList =
      new_content.toList ++ (PRESERVED_HEADER.toList ++
        (preservedFold 1 (preserve_keep_blocks old)).toList) := by
    simp [apply_keep_blocks, hne, toList_append, List.append_assoc]
  constructor
  · rw [hlist, List.take_left]
  · rw [hlist, List.drop_left]
    exact inOrderSub_append_left _
      (inOrder_preservedFold (preserve_keep_blocks old) 1)

/-- Witness for C3 (amended) at a two-block file. -/
theorem claim_C3_witness :
    (apply_keep_blocks "NEW" (preserve_keep_blocks
        ("<!-- KEEP:START -->A<!-- KEEP:END -->" ++
          "<!-- KEEP:START -->B<!-- KEEP:END -->"))).toList.take
        ("NEW" : String).toList.length = ("NEW" : String).toList ∧
    InOrderSub ((preserve_keep_blocks
        ("<!-- KEEP:START -->A<!-- KEEP:END -->" ++
          "<!-- KEEP:START -->B<!-- KEEP:END -->")).map
        (fun b => (pyStrip b).toList))
      ((apply_keep_blocks "NEW" (preserve_keep_blocks
        ("<!-- KEEP:START -->A<!-- KEEP:END -->" ++
          "<!-- KEEP:START -->B<!-- KEEP:END -->"))).toList.drop
        ("NEW" : String).toList.length) :=
  claim_C3_amended
    ("<!-- KEEP:START -->A<!-- KEEP:END -->" ++
      "<!-- KEEP:START -->B<!-- KEEP:END -->") "NEW" (by decide)

/-- Counterexample for C3 as stated: a KeepBlock whose content is
`" Q "` (leading/trailing whitespace) is NOT preserved verbatim: the
merged file does not contain `" Q "` anywhere, only the stripped `"Q"`,
because line 211 appends `block.strip()`. -/
theorem claim_C3_counterexample :
    preserve_keep_blocks "<!-- KEEP:START --> Q <!-- KEEP:END -->" =
      [" Q "] ∧
    containsSub " Q ".toList
      (apply_keep_blocks "ab" (preserve_keep_blocks
        "<!-- KEEP:START --> Q <!-- KEEP:END -->")).toList = false ∧
    containsSub "Q".toList
      (apply_keep_blocks "ab" (preserve_keep_blocks
        "<!-- KEEP:START --> Q <!-- KEEP:END -->")).toList = true := by
  decide

/-- C7 (amended): the Exclusion Matcher excludes a path iff some pattern
in the flattened list (the union over all categories) matches it by one of
the three checks, and its reason names the first matching pattern —
tagged `pattern:`/`directory:`/`recursive:` by match kind — not the name
of the matching category. -/
theorem claim_C7_amended (rel_path : String) (patterns : List String) :
    match patterns.find? (fun pat =>
        pattern_matches (strReplace rel_path "\\" "/") pat) with
    | none => should_sync_file rel_path patterns = (true, "include")
    | some pat =>
      (should_sync_file rel_path patterns).1 = false ∧
        ((should_sync_file rel_path patterns).2 = "pattern: " ++ pat ∨
         (should_sync_file rel_path patterns).2 = "directory: " ++ pat ∨
         (should_sync_file rel_path patterns).2 = "recursive: " ++ pat) := by
  unfold should_sync_file
  induction patterns with
  | nil => simp [List.find?, should_sync_loop]
  | cons pat rest ih =>
    by_cases hm : pattern_matches (strReplace rel_path "\\" "/") pat = true
    · rw [show (pat :: rest).find? (fun pa =>
          pattern_matches (strReplace rel_path "\\" "/") pa) = some pat from
        by simp [List.find?, hm]]
      by_cases hfn : fnmatch (strReplace rel_path "\\" "/") pat = true
      · simp only [should_sync_loop]
        rw [if_pos hfn]
        simp
      · by_cases hdir : (strEndsWith pat "/" &&
            strStartsWith (strReplace rel_path "\\" "/") pat) = true
        · simp only [should_sync_loop]
          rw [if_neg hfn, if_pos hdir]
          simp
        · have hrec : (containsSub "/**".toList pat.toList &&
              strStartsWith (strReplace rel_path "\\" "/")
                (strReplace pat "/**" "/")) = true := by
            have hm' := hm
            simp only [pattern_matches, Bool.or_eq_true] at hm'
            rcases hm' with (h | h) | h
            · exact absurd h hfn
            · exact absurd h hdir
            · exact h
          simp only [should_sync_loop]
          rw [if_neg hfn, if_neg hdir, if_pos hrec]
          simp
    · rw [show (pat :: rest).find? (fun pa =>
          pattern_matches (strReplace rel_path "\\" "/") pa) =
            rest.find? (fun pa =>
              pattern_matches (strReplace rel_path "\\" "/") pa) from
        by simp [List.find?, hm]]
      have hm' : pattern_matches (strReplace rel_path "\\" "/") pat = false := by
        simpa using hm
      simp only [pattern_matches, Bool.or_eq_false_iff] at hm'
      rw [show should_sync_loop (strReplace rel_path "\\" "/") (pat :: rest) =
          should_sync_loop (strReplace rel_path "\\" "/") rest from by
        simp only [should_sync_loop]
        rw [if_neg (show ¬ fnmatch (strReplace rel_path "\\" "/") pat = true
              from by rw [hm'.1.1]; exact Bool.false_ne_true),
          if_neg (show ¬ (strEndsWith pat "/" &&
              strStartsWith (strReplace rel_path "\\" "/") pat) = true
              from by rw [hm'.1.2]; exact Bool.false_ne_true),
          if_neg (show ¬ (containsSub "/**".toList pat.toList &&
              strStartsWith (strReplace rel_path "\\" "/")
                (strReplace pat "/**" "/")) = true
              from by rw [hm'.2]; exact Bool.false_ne_true)]]
      exact ih

/-- Counterexample for C7 as stated: `.DS_Store` matches only the
`personal_files` category, yet the reported reason is
`"pattern: .DS_Store"` — the matching pattern, not the category name. -/
theorem claim_C7_counterexample :
    should_sync_file ".DS_Store" get_all_exclusion_patterns =
      (false, "pattern: .DS_Store") ∧
    (SYNC_EXCLUSIONS.map (·.1)).contains "pattern: .DS_Store" = false := by
  decide

/-- C4 (amended): force-sync does not act during scanning, and
framework-prefixed files are not scanned at all: `Scan` walks only the
content allow-list (`class_notes`), so a framework-prefixed path never
appears in any classification list.  The force-sync classification acts
only in `Apply`: a framework path handed to `sync_file` gets
`force_update = true` and is therefore never Skipped (an existing target
is overwritten). -/
theorem claim_C4_amended (prof : Tree) (fs : Fs) (root : String)
    (se pe : List RelPath) (c : Changes) (p : RelPath) (src : Option FsFile)
    (fs2 : Fs) (now : Nat) (flist me ce de : List RelPath) (r : String)
    (fs3 : Fs) (hfw : is_framework_file p = true)
    (hscan : (scan_directory_changes prof fs root se pe).1 = some c)
    (hsync : sync_file src p fs2 (flist.contains p || is_framework_file p)
      now me ce de = some (r, fs3)) :
    (p ∉ c.new_files ∧ p ∉ c.updated_files ∧ p ∉ c.unchanged_files ∧
      p ∉ c.student_only_files) ∧ r ≠ "skipped" := by
  have hnc := framework_not_content p hfw
  unfold scan_directory_changes at hscan
  rcases hl : scanSourceLoop fs.files se pe (contentFiles prof) emptyChanges
    with _ | acc
  · rw [hl] at hscan
    simp at hscan
  · rw [hl] at hscan
    simp only [Option.some.injEq] at hscan
    have hcontent : ∀ q, q ∈ (contentFiles prof).map (·.1) → q ≠ p := by
      intro q hq he
      rw [he] at hq
      rw [mem_contentFiles prof p hq] at hnc
      cases hnc
    have hcontent2 : ∀ q, q ∈ (contentFiles fs.files).map (·.1) → q ≠ p := by
      intro q hq he
      rw [he] at hq
      rw [mem_contentFiles fs.files p hq] at hnc
      cases hnc
    refine ⟨⟨?_, ?_, ?_, ?_⟩, ?_⟩
    · intro hp
      rw [← hscan, studentOnly_new prof] at hp
      rcases scanLoop_new_sub fs.files se pe (contentFiles prof)
          emptyChanges acc hl p hp with h1 | h1
      · simp [emptyChanges] at h1
      · exact hcontent p h1 rfl
    · intro hp
      rw [← hscan, studentOnly_upd prof] at hp
      rcases scanLoop_upd_sub fs.files se pe (contentFiles prof)
          emptyChanges acc hl p hp with h1 | h1
      · simp [emptyChanges] at h1
      · exact hcontent p h1 rfl
    · intro hp
      rw [← hscan, studentOnly_unch prof] at hp
      rcases scanLoop_unch_sub fs.files se pe (contentFiles prof)
          emptyChanges acc hl p hp with h1 | h1
      · simp [emptyChanges] at h1
      · exact hcontent p h1 rfl
    · intro hp
      rw [← hscan] at hp
      rcases studentOnly_so_sub prof (contentFiles fs.files) acc p hp
        with h1 | h1
      · rw [scanLoop_so fs.files se pe (contentFiles prof) emptyChanges acc
          hl] at h1
        simp [emptyChanges] at h1
      · exact hcontent2 p h1 rfl
    · intro hr
      have hme := sync_file_mkdir_ok src p fs2
        (flist.contains p || is_framework_file p) now me ce de r fs3 hsync
      have hres := sync_file_res_skipped src p fs2
        (flist.contains p || is_framework_file p) now me ce de hme
      rw [hsync] at hres
      have h2 := hres.mp (by simp [hr])
      rw [hfw] at h2
      simp at h2

/-- Witness for C4 (amended) at `framework_code/scripts/manage.py`. -/
theorem claim_C4_witness :
    (("framework_code/scripts/manage.py" : RelPath) ∉ ([] : List RelPath) ∧
     ("framework_code/scripts/manage.py" : RelPath) ∉ ([] : List RelPath) ∧
     ("framework_code/scripts/manage.py" : RelPath) ∉ ([] : List RelPath) ∧
     ("framework_code/scripts/manage.py" : RelPath) ∉ ([] : List RelPath)) ∧
    ("updated" : String) ≠ "skipped" := by
  have h := claim_C4_amended
    [("framework_code/scripts/manage.py", ⟨"v2", 10⟩)]
    ⟨[("framework_code/scripts/manage.py", ⟨"v1", 20⟩)], []⟩ "students/s"
    [] [] ⟨[], [], [], [], []⟩ "framework_code/scripts/manage.py"
    (some ⟨"v", 1⟩) ⟨[("framework_code/scripts/manage.py", ⟨"old", 9⟩)], []⟩
    10 [] [] [] [] "updated"
    ⟨[("framework_code/scripts/manage.py", ⟨"v", 1⟩)],
      ["framework_code", "framework_code/scripts"]⟩
    (by decide) (by decide) (by decide)
  exact h

/-- Counterexample for C4 as stated: with a framework file whose target
copy is newer than the source, `Scan` does not classify it as updated
(nor anything else): the framework tree is outside the content allow-list,
and the scanner applies only the plain mtime rule. -/
theorem claim_C4_counterexample :
    ((scan_directory_changes
        [("framework_code/scripts/manage.py", ⟨"v2", 10⟩)]
        ⟨[("framework_code/scripts/manage.py", ⟨"v1", 20⟩)], []⟩
        "students/s" [] []).1).map Changes.updated_files = some [] ∧
    ((scan_directory_changes
        [("framework_code/scripts/manage.py", ⟨"v2", 10⟩)]
        ⟨[("framework_code/scripts/manage.py", ⟨"v1", 20⟩)], []⟩
        "students/s" [] []).1).map Changes.new_files = some [] := by decide

/-- C8: for a non-excluded file present in both trees with exactly equal
modification times, `Scan` classifies it as Unchanged — and (given unique
paths in the source walk) not as Updated or New: only a strictly newer
source mtime yields Updated. -/
theorem claim_C8 (prof : Tree) (fs : Fs) (root : String) (p : RelPath)
    (f tf : FsFile) (c : Changes)
    (hnd : (prof.map (·.1)).Nodup)
    (hmem : (p, f) ∈ contentFiles prof)
    (hsync : (should_sync_file p get_all_exclusion_patterns).1 = true)
    (hlook : lookupFile fs.files p = some tf)
    (hmt : tf.mtime = f.mtime)
    (hscan : (scan_directory_changes prof fs root [] []).1 = some c) :
    p ∈ c.unchanged_files ∧ p ∉ c.updated_files ∧ p ∉ c.new_files := by
  have hndc : ((contentFiles prof).map (·.1)).Nodup :=
    List.Nodup.sublist ((List.filter_sublist prof).map (·.1)) hnd
  unfold scan_directory_changes at hscan
  rw [scanLoop_eq fs.files (contentFiles prof) emptyChanges] at hscan
  simp only [Option.some.injEq] at hscan
  refine ⟨?_, ?_, ?_⟩
  · rw [← hscan, studentOnly_unch prof]
    have hcu : condUnch fs.files (p, f) = true := by
      simp [condUnch, syncB, hsync, hlook, hmt]
    refine List.mem_append_right _ ?_
    exact List.mem_map.mpr ⟨(p, f), List.mem_filter.mpr ⟨hmem, hcu⟩, rfl⟩
  · intro hp
    rw [← hscan, studentOnly_upd prof] at hp
    simp only [emptyChanges, List.nil_append, List.mem_map,
      List.mem_filter] at hp
    obtain ⟨e, ⟨hemem, hecond⟩, hefst⟩ := hp
    rcases e with ⟨q, g⟩
    simp only at hefst
    rw [hefst] at hemem hecond
    have hg : g = f := eq_of_mem_nodupKeys (contentFiles prof) p g f hndc
      hemem hmem
    subst hg
    simp only [condUpd, hlook] at hecond
    simp [hmt] at hecond
  · intro hp
    rw [← hscan, studentOnly_new prof] at hp
    simp only [emptyChanges, List.nil_append, List.mem_map,
      List.mem_filter] at hp
    obtain ⟨e, ⟨hemem, hecond⟩, hefst⟩ := hp
    rcases e with ⟨q, g⟩
    simp only at hefst
    rw [hefst] at hecond
    simp [condNew, hlook] at hecond

/-- Witness for C8: equal mtimes on `class_notes/a.md` scan as Unchanged. -/
theorem claim_C8_witness :
    ("class_notes/a.md" : RelPath) ∈ ["class_notes/a.md"] ∧
    ("class_notes/a.md" : RelPath) ∉ ([] : List RelPath) ∧
    ("class_notes/a.md" : RelPath) ∉ ([] : List RelPath) := by
  have h := claim_C8 [("class_notes/a.md", ⟨"v2", 10⟩)]
    ⟨[("class_notes/a.md", ⟨"v1", 10⟩)], []⟩ "students/s" "class_notes/a.md"
    ⟨"v2", 10⟩ ⟨"v1", 10⟩ ⟨[], [], ["class_notes/a.md"], [], []⟩
    (by decide) (by decide) (by decide) (by decide) (by decide) (by decide)
  exact h

theorem scan_new_upd_not_mem (prof : Tree) (fs : Fs) (root : String)
    (se pe : List RelPath) (c : Changes) (p : RelPath)
    (hscan : (scan_directory_changes prof fs root se pe).1 = some c)
    (h : lookupFile prof p = none) :
    p ∉ c.new_files ++ c.updated_files := by
  intro hp
  unfold scan_directory_changes at hscan
  rcases hl : scanSourceLoop fs.files se pe (contentFiles prof) emptyChanges
    with _ | acc
  · rw [hl] at hscan
    simp at hscan
  · rw [hl] at hscan
    simp only [Option.some.injEq] at hscan
    have hmem : p ∈ (contentFiles prof).map (·.1) := by
      rcases List.mem_append.mp hp with hp1 | hp1
      · rw [← hscan, studentOnly_new prof] at hp1
        rcases scanLoop_new_sub fs.files se pe _ _ acc hl p hp1 with h1 | h1
        · simp [emptyChanges] at h1
        · exact h1
      · rw [← hscan, studentOnly_upd prof] at hp1
        rcases scanLoop_upd_sub fs.files se pe _ _ acc hl p hp1 with h1 | h1
        · simp [emptyChanges] at h1
        · exact h1
    simp only [List.mem_map] at hmem
    obtain ⟨e, he, hefst⟩ := hmem
    have hmem2 : e ∈ prof := List.mem_of_mem_filter he
    rcases e with ⟨q, g⟩
    simp only at hefst
    rw [hefst] at hmem2
    exact not_mem_of_lookup_none prof p g h hmem2

/-- C2: non-destructiveness.  A file present only in the target tree is
untouched — byte-identical (indeed bit-identical, mtime included) — after
any number of Scan + Apply rounds, with any force list and any
filesystem-fault pattern: the executor only writes paths drawn from the
Scanner's new/updated lists, which all come from the source tree. -/
theorem claim_C2 (prof : Tree) (root : String) (flist : List RelPath)
    (now : Nat) (se pe me ce de : List RelPath) (n : Nat) (fs : Fs)
    (p : RelPath) (h : lookupFile prof p = none) :
    lookupFile
        (((syncRound prof root flist now se pe me ce de)^[n]) fs).files p =
      lookupFile fs.files p := by
  induction n generalizing fs with
  | zero => rfl
  | succ n ih =>
    rw [Function.iterate_succ_apply,
      ih (syncRound prof root flist now se pe me ce de fs)]
    unfold syncRound
    rcases hscan : scan_directory_changes prof fs root se pe with ⟨oc, fsA⟩
    have hfsA : fsA.files = fs.files := by
      have h2 := scan_fs_eq prof fs root se pe
      rw [hscan] at h2
      simp only at h2
      rw [h2]
    rcases oc with _ | changes
    · exact hfsA ▸ rfl
    · show lookupFile
          ((perform_sync prof fsA changes flist now me ce de).1).files p =
        lookupFile fs.files p
      unfold perform_sync
      by_cases hemp :
          ((changes.new_files ++ changes.updated_files).isEmpty = true)
      · rw [if_pos hemp]
        rw [hfsA]
      · rw [if_neg hemp]
        have hnm : p ∉ changes.new_files ++ changes.updated_files :=
          scan_new_upd_not_mem prof fs root se pe changes p
            (by rw [hscan]) h
        rw [syncLoop_preserve prof flist now me ce de _ fsA _ p hnm, hfsA]

/-- Witness for C2: a student-only note survives two full sync rounds. -/
theorem claim_C2_witness :
    lookupFile
        (((syncRound [("class_notes/a.md", ⟨"v", 10⟩)] "students/s" [] 20
            [] [] [] [] [])^[2])
          ⟨[("class_notes/mine.md", ⟨"m", 1⟩)], []⟩).files
        "class_notes/mine.md" =
      lookupFile ([("class_notes/mine.md", ⟨"m", 1⟩)] : Tree)
        "class_notes/mine.md" :=
  claim_C2 [("class_notes/a.md", ⟨"v", 10⟩)] "students/s" [] 20 [] [] [] []
    [] 2 ⟨[("class_notes/mine.md", ⟨"m", 1⟩)], []⟩ "class_notes/mine.md"
    (by decide)

theorem round_post (prof : Tree) (root : String) (flist : List RelPath)
    (now : Nat) (de : List RelPath) (fs : Fs) (c1 : Changes) (fsA : Fs)
    (hnd : (prof.map (·.1)).Nodup)
    (hmt : ∀ e ∈ prof, e.2.mtime ≤ now)
    (hscan1 : scan_directory_changes prof fs root [] [] = (some c1, fsA))
    (hforce : ∀ p ∈ c1.updated_files, flist.contains p = true) :
    ∀ p g, (p, g) ∈ contentFiles prof →
      (should_sync_file p get_all_exclusion_patterns).1 = true →
      ∃ tf, lookupFile
          ((perform_sync prof fsA c1 flist now [] [] de).1).files p =
        some tf ∧ g.mtime ≤ tf.mtime := by
  have hndL : ((contentFiles prof).map (·.1)).Nodup :=
    List.Nodup.sublist ((List.filter_sublist prof).map (·.1)) hnd
  have h1 := congrArg Prod.fst hscan1
  unfold scan_directory_changes at h1
  rw [scanLoop_eq fs.files (contentFiles prof) emptyChanges] at h1
  simp only [Option.some.injEq] at h1
  have hfsA : fsA.files = fs.files := by
    have h2 := scan_fs_eq prof fs root [] []
    rw [hscan1] at h2
    simp only at h2
    rw [h2]
  have hc1new : c1.new_files =
      ((contentFiles prof).filter (condNew fs.files)).map (·.1) := by
    rw [← h1, studentOnly_new prof]
    simp [emptyChanges]
  have hc1upd : c1.updated_files =
      ((contentFiles prof).filter (condUpd fs.files)).map (·.1) := by
    rw [← h1, studentOnly_upd prof]
    simp [emptyChanges]
  have hnd_new : c1.new_files.Nodup := by
    rw [hc1new]
    exact List.Nodup.sublist
      (List.Sublist.map (fun x => x.1)
        (List.filter_sublist (contentFiles prof))) hndL
  have hnd_upd : c1.updated_files.Nodup := by
    rw [hc1upd]
    exact List.Nodup.sublist
      (List.Sublist.map (fun x => x.1)
        (List.filter_sublist (contentFiles prof))) hndL
  have hentry : ∀ q, q ∈ c1.new_files ++ c1.updated_files →
      ∃ g, (q, g) ∈ contentFiles prof ∧ lookupFile prof q = some g := by
    intro q hq
    have hq2 : q ∈ ((contentFiles prof).filter (condNew fs.files)).map (·.1) ∨
        q ∈ ((contentFiles prof).filter (condUpd fs.files)).map (·.1) := by
      rcases List.mem_append.mp hq with h | h
      · exact Or.inl (hc1new ▸ h)
      · exact Or.inr (hc1upd ▸ h)
    have hq3 : ∃ g, (q, g) ∈ contentFiles prof := by
      rcases hq2 with h | h <;>
      · simp only [List.mem_map, List.mem_filter] at h
        obtain ⟨⟨q', g⟩, ⟨hm, _⟩, hf⟩ := h
        simp only at hf
        rw [hf] at hm
        exact ⟨g, hm⟩
    obtain ⟨g, hg⟩ := hq3
    exact ⟨g, hg, lookup_of_mem_nodupKeys prof q g hnd
      (List.mem_of_mem_filter hg)⟩
  have hdisj : ∀ a, a ∈ c1.new_files → a ∈ c1.updated_files → False := by
    intro a ha1 ha2
    rw [hc1new] at ha1
    rw [hc1upd] at ha2
    simp only [List.mem_map, List.mem_filter] at ha1 ha2
    obtain ⟨⟨q1, g1⟩, ⟨hm1, hcond1⟩, hf1⟩ := ha1
    obtain ⟨⟨q2, g2⟩, ⟨hm2, hcond2⟩, hf2⟩ := ha2
    simp only at hf1 hf2
    rw [hf1] at hcond1
    rw [hf2] at hcond2
    simp only [condNew, Bool.and_eq_true] at hcond1
    simp only [condUpd, Bool.and_eq_true] at hcond2
    rcases hlk : lookupFile fs.files a with _ | tf0
    · rw [hlk] at hcond2
      simp at hcond2
    · rw [hlk] at hcond1
      simp at hcond1
  have hndall : (c1.new_files ++ c1.updated_files).Nodup :=
    List.Nodup.append hnd_new hnd_upd hdisj
  have hloophyp : ∀ q ∈ c1.new_files ++ c1.updated_files,
      ∃ sfq, lookupFile prof q = some sfq ∧ sfq.mtime ≤ now ∧
        ((flist.contains q || is_framework_file q) = true ∨
          lookupFile fsA.files q = none) := by
    intro q hq
    obtain ⟨g, hg, hlk⟩ := hentry q hq
    refine ⟨g, hlk, hmt (q, g) (List.mem_of_mem_filter hg), ?_⟩
    rcases List.mem_append.mp hq with h | h
    · right
      rw [hc1new] at h
      simp only [List.mem_map, List.mem_filter] at h
      obtain ⟨⟨q', g'⟩, ⟨hm, hcond⟩, hf⟩ := h
      simp only at hf
      rw [hf] at hcond
      simp only [condNew, Bool.and_eq_true] at hcond
      rw [hfsA]
      exact Option.isNone_iff_eq_none.mp hcond.2
    · have hql : q ∈ flist := by simpa using hforce q h
      exact Or.inl (by simp [hql])
  intro p g hmem hsync
  by_cases hpall : p ∈ c1.new_files ++ c1.updated_files
  · have hne : (c1.new_files ++ c1.updated_files).isEmpty = false := by
      rcases hl : c1.new_files ++ c1.updated_files with _ | ⟨x, xs⟩
      · rw [hl] at hpall
        simp at hpall
      · rfl
    unfold perform_sync
    rw [if_neg (by rw [hne]; exact Bool.false_ne_true)]
    obtain ⟨sf, tf, hsf, hltf, hle⟩ := syncLoop_post prof flist now de
      (c1.new_files ++ c1.updated_files) fsA results0 hndall hloophyp p hpall
    have hsfg : sf = g := by
      have hlk := lookup_of_mem_nodupKeys prof p g hnd
        (List.mem_of_mem_filter hmem)
      rw [hlk] at hsf
      exact (Option.some_inj.mp hsf).symm
    exact ⟨tf, hltf, hsfg ▸ hle⟩
  · have hnew : condNew fs.files (p, g) = false := by
      by_contra hcn
      have hcn' : condNew fs.files (p, g) = true := by simpa using hcn
      have : p ∈ c1.new_files := by
        rw [hc1new]
        exact List.mem_map.mpr ⟨(p, g), List.mem_filter.mpr ⟨hmem, hcn'⟩, rfl⟩
      exact hpall (List.mem_append_left _ this)
    have hupd : condUpd fs.files (p, g) = false := by
      by_contra hcu
      have hcu' : condUpd fs.files (p, g) = true := by simpa using hcu
      have : p ∈ c1.updated_files := by
        rw [hc1upd]
        exact List.mem_map.mpr ⟨(p, g), List.mem_filter.mpr ⟨hmem, hcu'⟩, rfl⟩
      exact hpall (List.mem_append_right _ this)
    have hpres : lookupFile
        ((perform_sync prof fsA c1 flist now [] [] de).1).files p =
        lookupFile fs.files p := by
      unfold perform_sync
      by_cases hemp : ((c1.new_files ++ c1.updated_files).isEmpty = true)
      · rw [if_pos hemp, hfsA]
      · rw [if_neg hemp,
          syncLoop_preserve prof flist now [] [] de _ fsA _ p hpall, hfsA]
    rcases hlk : lookupFile fs.files p with _ | tf
    · exfalso
      simp only [condNew, syncB] at hnew
      rw [hsync, hlk] at hnew
      simp at hnew
    · refine ⟨tf, by rw [hpres, hlk], ?_⟩
      simp only [condUpd, syncB] at hupd
      rw [hsync, hlk] at hupd
      simp at hupd
      omega

/-- C1 (amended): Scan + Apply is idempotent provided every file the first
Scan classified as updated is force-synced (explicitly requested or
framework-prefixed): with unique source paths, source mtimes not in the
future, and no filesystem faults, the second Scan yields empty new and
updated sets, and the second Apply returns the all-zero result counters.
Without that proviso Apply skips a non-forced updated file, whose mtime
then stays older than the source's, so the second Scan reports it updated
again (see the counterexample). -/
theorem claim_C1_amended (prof : Tree) (root : String) (flist : List RelPath)
    (now : Nat) (de : List RelPath) (fs : Fs) (c1 : Changes) (fsA : Fs)
    (c2 : Changes)
    (hnd : (prof.map (·.1)).Nodup)
    (hmt : ∀ e ∈ prof, e.2.mtime ≤ now)
    (hscan1 : scan_directory_changes prof fs root [] [] = (some c1, fsA))
    (hforce : ∀ p ∈ c1.updated_files, flist.contains p = true)
    (hscan2 : (scan_directory_changes prof
        (perform_sync prof fsA c1 flist now [] [] de).1 root [] []).1 =
      some c2) :
    c2.new_files = [] ∧ c2.updated_files = [] ∧
      (perform_sync prof
        (scan_directory_changes prof
          (perform_sync prof fsA c1 flist now [] [] de).1 root [] []).2 c2
        flist now [] [] de).2.1 = results0 := by
  have hpost := round_post prof root flist now de fs c1 fsA hnd hmt hscan1
    hforce
  unfold scan_directory_changes at hscan2
  rw [scanLoop_eq (perform_sync prof fsA c1 flist now [] [] de).1.files
    (contentFiles prof) emptyChanges] at hscan2
  simp only [Option.some.injEq] at hscan2
  have hnewnil : (contentFiles prof).filter
      (condNew (perform_sync prof fsA c1 flist now [] [] de).1.files) =
      [] := by
    rw [List.filter_eq_nil_iff]
    intro e he
    rcases e with ⟨p, g⟩
    by_cases hs : (should_sync_file p get_all_exclusion_patterns).1 = true
    · obtain ⟨tf, htf, _⟩ := hpost p g he hs
      simp [condNew, syncB, htf]
    · simp [condNew, syncB, hs]
  have hupdnil : (contentFiles prof).filter
      (condUpd (perform_sync prof fsA c1 flist now [] [] de).1.files) =
      [] := by
    rw [List.filter_eq_nil_iff]
    intro e he
    rcases e with ⟨p, g⟩
    by_cases hs : (should_sync_file p get_all_exclusion_patterns).1 = true
    · obtain ⟨tf, htf, hle⟩ := hpost p g he hs
      simp [condUpd, syncB, htf]
      omega
    · simp [condUpd, syncB, hs]
  have hc2new : c2.new_files = [] := by
    rw [← hscan2, studentOnly_new prof]
    simp [emptyChanges, hnewnil]
  have hc2upd : c2.updated_files = [] := by
    rw [← hscan2, studentOnly_upd prof]
    simp [emptyChanges, hupdnil]
  refine ⟨hc2new, hc2upd, ?_⟩
  unfold perform_sync
  rw [if_pos (by rw [hc2new, hc2upd]; rfl)]

/-- Witness for C1 (amended): with the single updated file explicitly
force-listed, one round converges and the second scan is clean. -/
theorem claim_C1_witness :
    (⟨[], [], ["class_notes/a.md"], [], []⟩ : Changes).new_files = [] ∧
    (⟨[], [], ["class_notes/a.md"], [], []⟩ : Changes).updated_files = [] ∧
    (perform_sync [("class_notes/a.md", ⟨"v2", 10⟩)]
      (scan_directory_changes [("class_notes/a.md", ⟨"v2", 10⟩)]
        (perform_sync [("class_notes/a.md", ⟨"v2", 10⟩)]
          ⟨[("class_notes/a.md", ⟨"v1", 5⟩)], ["students", "students/s"]⟩
          ⟨[], ["class_notes/a.md"], [], [], []⟩ ["class_notes/a.md"] 20
          [] [] []).1 "students/s" [] []).2
      ⟨[], [], ["class_notes/a.md"], [], []⟩ ["class_notes/a.md"] 20
      [] [] []).2.1 = results0 := by
  have h := claim_C1_amended [("class_notes/a.md", ⟨"v2", 10⟩)] "students/s"
    ["class_notes/a.md"] 20 [] ⟨[("class_notes/a.md", ⟨"v1", 5⟩)], []⟩
    ⟨[], ["class_notes/a.md"], [], [], []⟩
    ⟨[("class_notes/a.md", ⟨"v1", 5⟩)], ["students", "students/s"]⟩
    ⟨[], [], ["class_notes/a.md"], [], []⟩
    (by decide) (by decide) (by decide) (by decide) (by decide)
  exact h

/-- Counterexample for C1 as stated: a single non-framework updated file
is skipped by Apply (perform_sync passes no force list), so the second
Scan still reports it in `updated` — the new/updated set of the second
Scan is not empty. -/
theorem claim_C1_counterexample :
    (((scan_directory_changes [("class_notes/a.md", ⟨"v2", 10⟩)]
        (syncRound [("class_notes/a.md", ⟨"v2", 10⟩)] "students/s" [] 20
          [] [] [] [] [] ⟨[("class_notes/a.md", ⟨"v1", 5⟩)], []⟩)
        "students/s" [] []).1).getD emptyChanges).updated_files =
      ["class_notes/a.md"] := by decide

end SyncStudent
